import Mathlib

/-!
Verification of the merlin-db decoding / validation / facade pipeline.

This file gives a shallow embedding, in Lean 4, of the core data model and
operations of the `merlindb` Python package:

* `parser.py` — `get_available_tables`, `get_table_data`, `_validate_table_data`
  (here `validate_table_data`);
* `api.py` — `MerlinDB.list_tables`, `table_exists`, `get_table_info`,
  `get_database_summary`;
* `utils.py` — `select_tables`;
* `exporters/json.py` — `JSONExporter._convert_to_records` and the
  `export_single_table` dictionary structure.

Python dictionaries (which preserve insertion order) are embedded as
association lists `List (String × _)`; table data is `List (String × List Value)`
(column name to column values).  Fallible Python code (raising `ValueError`)
is embedded with `Except String`.  The external `AccessParser` handle is
embedded as a structure holding its catalog key list and its `parse_table`
operation.  The pydantic model classes of `models/genisys.py` are embedded as
`PdModel` values (an ordered list of fields, each with a declared type and
nullability), with pydantic v2 lax row validation embedded by
`PdModel.validateRow`.
-/

namespace MerlinDB

/-- Cell values produced by the catalog reader's decode: we model the
value universe needed by the registered schemas and claims (`None`,
booleans, integers and strings). -/
inductive Value where
  | vnull : Value
  | vbool : Bool → Value
  | vint : Int → Value
  | vstr : String → Value
deriving DecidableEq, Repr

/-- Decidable equality of `Except` results, used to evaluate the embedded
operations on concrete inputs. -/
instance instDecEqExcept {ε α : Type} [DecidableEq ε] [DecidableEq α] :
    DecidableEq (Except ε α) := fun a b =>
  match a, b with
  | .ok x, .ok y => if h : x = y then .isTrue (by rw [h]) else .isFalse (by simp [h])
  | .error x, .error y => if h : x = y then .isTrue (by rw [h]) else .isFalse (by simp [h])
  | .ok _, .error _ => .isFalse (by simp)
  | .error _, .ok _ => .isFalse (by simp)

/-- Python's `", ".join(xs)`. -/
def commaJoin : List String → String
  | [] => ""
  | [x] => x
  | x :: xs => x ++ ", " ++ commaJoin xs

/-- Python's lexicographic string comparison (code-point order), as a
boolean relation; `sorted` on strings orders by this relation.  (The
Mathlib `String` order is propositionally the same but its decision
procedure does not reduce in the kernel, so we use an explicit
structural recursion on the character lists.) -/
def pyStrLeAux : List Char → List Char → Bool
  | [], _ => true
  | _ :: _, [] => false
  | x :: xs, y :: ys => if x.toNat = y.toNat then pyStrLeAux xs ys else Nat.blt x.toNat y.toNat

/-- Lexicographic code-point order on strings, mirroring Python `<=`. -/
def pyStrLe (a b : String) : Bool :=
  pyStrLeAux a.data b.data

/-- Python's `sorted` on a list of strings (lexicographic code-point order). -/
def pySorted (l : List String) : List String :=
  List.insertionSort (fun a b => pyStrLe a b = true) l

/-- Python's `str.lower`, restricted to the character-wise case mapping
(the table names involved are ASCII, where `str.lower` is exactly
character-wise `Char.toLower`). -/
def pyLower (s : String) : String :=
  String.mk (s.data.map Char.toLower)

/-- The logical field types declared by the registered pydantic models that
the claims exercise (`int`, `str`, `bool` annotations in `models/genisys.py`). -/
inductive PdType where
  | intT : PdType
  | strT : PdType
  | boolT : PdType
deriving DecidableEq, Repr

/-- One declared model field: its name, its declared type, and whether the
annotation is the nullable form `T | None`. -/
structure PdField where
  name : String
  type : PdType
  nullable : Bool
deriving DecidableEq, Repr

/-- A registered pydantic model class: its fields in declaration order. -/
structure PdModel where
  fields : List PdField
deriving DecidableEq, Repr

/-- The declared field names of a model, in declaration order (the key
order of `model_dump()`). -/
def PdModel.names (m : PdModel) : List String :=
  m.fields.map PdField.name

/-- Parse a decimal integer literal with optional sign, mirroring the
integer-string parsing pydantic v2 applies when lax-coercing `str` to `int`
(we only rely on it for clearly valid and clearly invalid inputs). -/
def parseIntChars : List Char → Option Int
  | [] => none
  | '-' :: ds => (parseNatChars ds).map (fun n => -(n : Int))
  | '+' :: ds => (parseNatChars ds).map (fun n => (n : Int))
  | ds => (parseNatChars ds).map (fun n => (n : Int))
where
  /-- Parse a nonempty all-digit character list as a natural number. -/
  parseNatChars (ds : List Char) : Option Nat :=
    if ds.isEmpty then none
    else ds.foldl (fun acc c =>
      acc.bind (fun n => if c.isDigit then some (n * 10 + (c.toNat - 48)) else none))
      (some 0)

/-- Pydantic v2 lax coercion of one input value against a declared field
type: `T | None` accepts `None`; `int` accepts ints and integer strings
(bools are rejected for `int` in v2); `str` accepts only strings; `bool`
accepts bools and the ints 0/1.  Returns the normalized value or an error
message. -/
def coerceValue (t : PdType) (nullable : Bool) (v : Value) : Except String Value :=
  match v with
  | .vnull => if nullable then .ok .vnull else .error "none is not an allowed value"
  | .vint n =>
    match t with
    | .intT => .ok (.vint n)
    | .strT => .error "input should be a valid string"
    | .boolT =>
      if n = 0 then .ok (.vbool false)
      else if n = 1 then .ok (.vbool true)
      else .error "input should be a valid boolean"
  | .vstr s =>
    match t with
    | .intT =>
      match parseIntChars s.data with
      | some n => .ok (.vint n)
      | none => .error "input should be a valid integer"
    | .strT => .ok (.vstr s)
    | .boolT => .error "input should be a valid boolean"
  | .vbool b =>
    match t with
    | .intT => .error "input should be a valid integer"
    | .strT => .error "input should be a valid string"
    | .boolT => .ok (.vbool b)

/-- Validation of one row dictionary against a model, mirroring
`model_class(**row_data)` followed by `model_dump()`: every declared field
is looked up in the row (missing keys are "field required" errors) and
lax-coerced; errors for all fields are collected into one `ValidationError`
message; on success the dump lists exactly the declared fields, in
declaration order, with their normalized values. -/
def PdModel.validateRow (m : PdModel) (row : List (String × Value)) :
    Except String (List (String × Value)) :=
  let results := m.fields.map (fun f =>
    match row.lookup f.name with
    | none => (f.name, (Except.error "field required" : Except String Value))
    | some v => (f.name, coerceValue f.type f.nullable v))
  if results.all (fun p => p.2.isOk) then
    .ok (results.map (fun p => (p.1, match p.2 with | .ok v => v | .error _ => .vnull)))
  else
    .error (commaJoin (results.filterMap (fun p =>
      match p.2 with
      | .error e => some (p.1 ++ ": " ++ e)
      | .ok _ => none)))

/-- Columnar table data: a Python dict mapping column names to value lists,
kept in insertion order. -/
abbrev TableData := List (String × List Value)

/-- The row count used by the materializer and exporters: the length of the
first column's value list (`len(next(iter(raw_data.values())))`), `0` for an
empty dict. -/
def numRows (raw : TableData) : Nat :=
  match raw with
  | [] => 0
  | p :: _ => p.2.length

/-- `validated_data[col].append(v)` guarded by `if col in validated_data`:
append `v` to the entry named `col` when present, otherwise leave the table
unchanged. -/
def appendCell (d : TableData) (col : String) (v : Value) : TableData :=
  d.map (fun p => if p.1 = col then (p.1, p.2 ++ [v]) else p)

/-- Build the row dictionary for row `idx`
(`row_data[col] = raw_data[col][row_idx] if row_idx < len(raw_data[col]) else None`). -/
def buildRow (columns : List String) (raw : TableData) (idx : Nat) : List (String × Value) :=
  columns.map (fun c => (c, ((raw.lookup c).getD []).getD idx .vnull))

/-- The per-row loop of `_validate_table_data` (`parser.py`), over the list
of row indices: on success the `model_dump()` items are appended back into
the column dict (only for keys present there); on `ValidationError` one
error `"Row {row_idx}: {e}"` is collected and the raw row values are
appended instead. -/
def validateLoop (model : PdModel) (columns : List String) (raw : TableData) :
    List Nat → TableData → List (Nat × String) → TableData × List (Nat × String)
  | [], d, errs => (d, errs)
  | idx :: rest, d, errs =>
    let row_data := buildRow columns raw idx
    match model.validateRow row_data with
    | .ok row_dict =>
      let d := row_dict.foldl (fun acc cv => appendCell acc cv.1 cv.2) d
      validateLoop model columns raw rest d errs
    | .error e =>
      let errs := errs ++ [(idx, "Row " ++ toString idx ++ ": " ++ e)]
      let d := columns.foldl (fun acc c => appendCell acc c ((row_data.lookup c).getD .vnull)) d
      validateLoop model columns raw rest d errs

/-- `parser._validate_table_data`: materialize a table against its
registered model.  Returns the validated column dict together with the
collected validation errors (which the Python function prints as warnings;
they are never raised). -/
def validate_table_data (model : PdModel) (raw_data : TableData) :
    TableData × List (Nat × String) :=
  let validated_data : TableData := raw_data.map (fun p => (p.1, []))
  match raw_data with
  | [] => (validated_data, [])
  | _ :: _ =>
    let columns := raw_data.map Prod.fst
    validateLoop model columns raw_data (List.range (numRows raw_data)) validated_data []

/-- The opened database handle of the external `AccessParser` library, as
the core depends on it: the key list of its `catalog` dict, and its
`parse_table` operation (columnar decode of one table, which may fail). -/
structure AccessDB where
  catalog : List String
  parse_table : String → Except String TableData

/-- `parser.get_available_tables`: `sorted(list(db.catalog.keys()))`. -/
def get_available_tables (db : AccessDB) : List String :=
  pySorted db.catalog

/-- The schema registry: the `model_map` dict of `models/genisys.py`
(table name to model class), passed as an explicit parameter to the
operations that consult it. -/
abbrev ModelMap := List (String × PdModel)

/-- `parser.get_table_data`: unknown names raise `ValueError` listing the
available tables; otherwise the raw decode is returned, validated through
`_validate_table_data` when `validate` is true and a model is registered
for the name; decode failures are wrapped. -/
def get_table_data (mm : ModelMap) (db : AccessDB) (table_name : String) (validate : Bool) :
    Except String TableData :=
  let available_tables := get_available_tables db
  if table_name ∉ available_tables then
    .error ("Table '" ++ table_name ++ "' not found. Available tables: "
      ++ commaJoin available_tables)
  else
    match db.parse_table table_name with
    | .error e => .error ("Failed to parse table '" ++ table_name ++ "': " ++ e)
    | .ok raw_data =>
      if validate = false then .ok raw_data
      else
        match mm.lookup table_name with
        | none => .ok raw_data
        | some model => .ok (validate_table_data model raw_data).1

/-- `MerlinDB.table_exists`: membership of the name in `list_tables()`
(whose value is always the sorted catalog, see the `Session` model below
for the caching/copying behaviour). -/
def table_exists (db : AccessDB) (table_name : String) : Bool :=
  (get_available_tables db).contains table_name

/-- The metadata record built by `MerlinDB.get_table_info`; the Python
degraded record carries an `"error"` key, embedded here as `error = some msg`
(`none` on the success path, where the key is absent). -/
structure TableInfo where
  name : String
  columns : List String
  column_count : Nat
  record_count : Nat
  has_pydantic_model : Bool
  error : Option String
deriving DecidableEq, Repr

/-- `MerlinDB.get_table_info`: raises for unknown names; otherwise decodes
raw and reports column/record counts, catching any decode failure into a
degraded record instead of propagating it. -/
def get_table_info (mm : ModelMap) (db : AccessDB) (table_name : String) :
    Except String TableInfo :=
  if table_exists db table_name = false then
    .error ("Table '" ++ table_name ++ "' not found. Available: "
      ++ commaJoin (get_available_tables db))
  else
    match get_table_data mm db table_name false with
    | .ok data =>
      let columns := if data.isEmpty then [] else data.map Prod.fst
      let record_count :=
        if columns.isEmpty || data.isEmpty then 0
        else ((data.lookup (columns.headI)).getD []).length
      .ok { name := table_name, columns := columns, column_count := columns.length,
            record_count := record_count,
            has_pydantic_model := (mm.lookup table_name).isSome, error := none }
    | .error e =>
      .ok { name := table_name, columns := [], column_count := 0, record_count := 0,
            has_pydantic_model := false, error := some e }

/-- The record built by `MerlinDB.get_database_summary` (the `file_path`
key, a constant copy of the handle's path, is omitted). -/
structure DbSummary where
  total_tables : Nat
  tables_with_data : Nat
  tables_with_models : Nat
  total_records : Nat
  model_coverage : String
deriving DecidableEq, Repr

/-- Round the quotient `a / b` to the nearest integer with ties to even —
the rounding rule of both IEEE-754 binary64 arithmetic and CPython's
fixed-point float formatting. -/
def roundHalfEven (a b : Nat) : Nat :=
  let k := a / b
  let r := a % b
  if 2 * r < b then k
  else if b < 2 * r then k + 1
  else if k % 2 = 0 then k else k + 1

/-- Floor of the base-2 logarithm of a positive natural number, by
structural recursion on a fuel bound (so that it evaluates by reduction). -/
def natLog2Aux : Nat → Nat → Nat
  | 0, _ => 0
  | fuel + 1, n => if n ≤ 1 then 0 else natLog2Aux fuel (n / 2) + 1

/-- Floor of the base-2 logarithm of a positive natural number. -/
def natLog2 (n : Nat) : Nat :=
  natLog2Aux n n

/-- Floor of the base-2 logarithm of the positive rational `a / b`. -/
def ratLog2Floor (a b : Nat) : Int :=
  let e0 : Int := (natLog2 a : Int) - (natLog2 b : Int)
  if 0 ≤ e0 then
    if b * 2 ^ e0.toNat ≤ a then e0 else e0 - 1
  else
    if b ≤ a * 2 ^ (-e0).toNat then e0 else e0 - 1

/-- The IEEE-754 binary64 double nearest to `a / b` (ties to even),
returned as a scaled pair `(N, s)` whose exact value is `N / 2^s`: the
true quotient is scaled so that the 53-bit mantissa granularity of its
binade becomes integral (granularity `2^-1074` below the normal range,
whose subnormal spacing CPython's division also honours), then rounded
half-to-even.  Overflow (quotients at or above `2^1024`) is not modelled;
the summary's quotients lie in `[0, 100]`. -/
def roundToDouble (a b : Nat) : Nat × Nat :=
  if a = 0 ∨ b = 0 then (0, 0)
  else
    let e : Int := ratLog2Floor a b
    if e < -1022 then (roundHalfEven (a * 2 ^ 1074) b, 1074)
    else if e ≤ 52 then
      let s := (52 - e).toNat
      (roundHalfEven (a * 2 ^ s) b, s)
    else
      let g := (e - 52).toNat
      (roundHalfEven a (b * 2 ^ g) * 2 ^ g, 0)

/-- Format `m / n * 100` to one decimal place with a trailing `%`, exactly
as `f"{(m / n * 100):.1f}%"` computes it: `m / n` is CPython true division
of two ints (the correctly rounded binary64 double of the exact ratio),
`* 100` is a correctly rounded binary64 product, and `:.1f` renders the
resulting double's exact binary value rounded to one decimal digit
(half-to-even, CPython's correctly rounded dtoa). -/
def format_coverage (m n : Nat) : String :=
  let d1 := roundToDouble m n
  let d2 := roundToDouble (100 * d1.1) (2 ^ d1.2)
  let k := roundHalfEven (10 * d2.1) (2 ^ d2.2)
  toString (k / 10) ++ "." ++ toString (k % 10) ++ "%"

/-- The body of the per-table loop of `get_database_summary`, acting on the
accumulator `(total_records, tables_with_data, tables_with_models)`: tables
whose decode raises are skipped (`except Exception: continue`). -/
def summaryStep (mm : ModelMap) (db : AccessDB) (acc : Nat × Nat × Nat) (table_name : String) :
    Nat × Nat × Nat :=
  match get_table_data mm db table_name false with
  | .error _ => acc
  | .ok data =>
    let (total_records, tables_with_data, tables_with_models) := acc
    let (total_records, tables_with_data) :=
      if data.isEmpty then (total_records, tables_with_data)
      else
        let columns := data.map Prod.fst
        if columns.isEmpty then (total_records, tables_with_data)
        else
          let record_count := ((data.lookup (columns.headI)).getD []).length
          (total_records + record_count,
           if 0 < record_count then tables_with_data + 1 else tables_with_data)
    let tables_with_models :=
      if (mm.lookup table_name).isSome then tables_with_models + 1 else tables_with_models
    (total_records, tables_with_data, tables_with_models)

/-- `MerlinDB.get_database_summary`: best-effort accumulation over every
catalog table, with the model-coverage percentage string. -/
def get_database_summary (mm : ModelMap) (db : AccessDB) : DbSummary :=
  let tables := get_available_tables db
  let acc := tables.foldl (summaryStep mm db) (0, 0, 0)
  { total_tables := tables.length
    tables_with_data := acc.2.1
    tables_with_models := acc.2.2
    total_records := acc.1
    model_coverage :=
      if tables.isEmpty then "0%" else format_coverage acc.2.2 tables.length }

/-- Glob matching of a name against a pattern, as `fnmatch.filter` performs
it on POSIX (case-sensitive, whole-string): `*` matches any run of
characters, `?` any single character, anything else itself.  (The
repository's patterns use only literals and `*`/`?`; the `[...]` character
classes of `fnmatch` are not modelled.) -/
def globMatch : List Char → List Char → Bool
  | [], s => s.isEmpty
  | p :: ps, s =>
    if p = '*' then s.tails.any (fun t => globMatch ps t)
    else if p = '?' then
      match s with
      | [] => false
      | _ :: cs => globMatch ps cs
    else
      match s with
      | [] => false
      | c :: cs => p = c && globMatch ps cs

/-- `fnmatch.fnmatch(name, pattern)` on a POSIX system. -/
def fnmatch (name : String) (pattern : String) : Bool :=
  globMatch pattern.data name.data

/-- `utils.select_tables`: no patterns selects every table; otherwise each
pattern contributes its case-sensitive glob matches (`fnmatch.filter`) plus
any case-insensitively equal exact names, the union is deduplicated
(Python accumulates into a `set`) and sorted, and an empty selection
raises `ValueError` naming the patterns and the available tables. -/
def select_tables (available_tables : List String) (table_patterns : List String) :
    Except String (List String) :=
  if table_patterns.isEmpty then .ok available_tables
  else
    let selected := table_patterns.foldl (fun acc pattern =>
      acc ++ available_tables.filter (fun t => fnmatch t pattern)
          ++ available_tables.filter (fun t => pyLower t = pyLower pattern)) []
    let selected_list := pySorted selected.dedup
    if selected_list.isEmpty then
      .error ("No tables found matching patterns: " ++ commaJoin table_patterns
        ++ ". Available tables: " ++ commaJoin available_tables)
    else
      .ok selected_list

/-- `JSONExporter._convert_to_records`: column-oriented to record-oriented
conversion; each record is a dict with one entry per column, reading values
by index with `None` for indices beyond a short column. -/
def convert_to_records (table_data : TableData) : List (List (String × Value)) :=
  match table_data with
  | [] => []
  | p :: _ =>
    let columns := table_data.map Prod.fst
    if columns.isEmpty then []
    else
      let num_rows := p.2.length
      (List.range num_rows).map (fun i =>
        columns.map (fun c => (c, ((table_data.lookup c).getD []).getD i .vnull)))

/-- The `export_data` dict written by `JSONExporter.export_single_table`. -/
structure SingleTableExport where
  table_name : String
  provider_mode : String
  record_count : Nat
  columns : List String
  records : List (List (String × Value))
deriving DecidableEq, Repr

/-- The value serialized by `JSONExporter.export_single_table` for one
table's columnar data (the surrounding file I/O is not modelled). -/
def export_single_table_data (provider_mode : String) (table_name : String)
    (table_data : TableData) : SingleTableExport :=
  let records := convert_to_records table_data
  { table_name := table_name
    provider_mode := provider_mode
    record_count := records.length
    columns := if table_data.isEmpty then [] else table_data.map Prod.fst
    records := records }

/-- One `MerlinDB` session (`api.py`), modelled with an explicit heap of
mutable Python list objects so that the `.copy()` in `list_tables` is
observable: `heap` holds the list objects allocated so far (an address is
an index), `cacheAddr` is the `_available_tables` attribute (`none` until
the first call), and `catalog` is the underlying handle's table set. -/
structure Session where
  catalog : List String
  heap : List (List String)
  cacheAddr : Option Nat

/-- A freshly constructed `MerlinDB` object: no list allocated yet,
`_available_tables = None`. -/
def initSession (catalog : List String) : Session :=
  { catalog := catalog, heap := [], cacheAddr := none }

/-- `MerlinDB.list_tables`: on first call the sorted name list is computed
and stored in `_available_tables`; every call returns
`self._available_tables.copy()` — a freshly allocated list object holding
the cached contents.  Returns the address of that fresh object. -/
def listTablesOp (s : Session) : Session × Nat :=
  let filled :=
    match s.cacheAddr with
    | some a => (s, a)
    | none =>
      let a := s.heap.length
      ({ s with heap := s.heap ++ [pySorted s.catalog], cacheAddr := some a }, a)
  let s1 := filled.1
  let v := s1.heap.getD filled.2 []
  let r := s1.heap.length
  ({ s1 with heap := s1.heap ++ [v] }, r)

/-- `MerlinDB.table_exists`: `table_name in self.list_tables()`.  The list
returned by the inner call is a temporary whose address never escapes to
the caller. -/
def tableExistsOp (s : Session) (table_name : String) : Session × Bool :=
  let called := listTablesOp s
  (called.1, (called.1.heap.getD called.2 []).contains table_name)

/-- Client-visible events against one session: calling `list_tables`,
calling `table_exists`, or mutating (overwriting in place) the `k`-th list
object that earlier `list_tables` calls returned. -/
inductive ClientEv where
  | callList : ClientEv
  | callExists : String → ClientEv
  | mutate : Nat → List String → ClientEv
deriving DecidableEq, Repr

/-- The value a client observes from one call: the contents of the returned
list at return time, or the boolean from `table_exists`. -/
inductive CallResult where
  | listed : List String → CallResult
  | existed : Bool → CallResult
deriving DecidableEq, Repr

/-- Run a sequence of client events against a session.  `addrs` collects
the addresses of the list objects handed to the client so far; a `mutate`
event overwrites one of them in place. -/
def runSession (s : Session) (addrs : List Nat) : List ClientEv → List CallResult
  | [] => []
  | .callList :: evs =>
    let called := listTablesOp s
    .listed (called.1.heap.getD called.2 []) :: runSession called.1 (addrs ++ [called.2]) evs
  | .callExists name :: evs =>
    let called := tableExistsOp s name
    .existed called.2 :: runSession called.1 addrs evs
  | .mutate k v :: evs =>
    match addrs[k]? with
    | some a => runSession { s with heap := s.heap.set a v } addrs evs
    | none => runSession s addrs evs

/-! ### Properties of the string order, sorting and joining -/

theorem pyStrLeAux_total (xs ys : List Char) :
    pyStrLeAux xs ys = true ∨ pyStrLeAux ys xs = true := by
  induction xs generalizing ys with
  | nil => left; rfl
  | cons x xs ih =>
    cases ys with
    | nil => right; rfl
    | cons y ys =>
      by_cases h : x.toNat = y.toNat
      · simpa [pyStrLeAux, h] using ih ys
      · simp only [pyStrLeAux, h, if_neg, Ne.symm h, if_false, Nat.blt_eq]
        omega

theorem pyStrLeAux_trans (xs ys zs : List Char) (h1 : pyStrLeAux xs ys = true)
    (h2 : pyStrLeAux ys zs = true) : pyStrLeAux xs zs = true := by
  induction xs generalizing ys zs with
  | nil => rfl
  | cons x xs ih =>
    cases ys with
    | nil => simp [pyStrLeAux] at h1
    | cons y ys =>
      cases zs with
      | nil => simp [pyStrLeAux] at h2
      | cons z zs =>
        simp only [pyStrLeAux] at h1 h2 ⊢
        by_cases hxy : x.toNat = y.toNat <;> by_cases hyz : y.toNat = z.toNat
        · rw [if_pos hxy] at h1
          rw [if_pos hyz] at h2
          rw [if_pos (hxy.trans hyz)]
          exact ih ys zs h1 h2
        · rw [if_pos hxy] at h1
          rw [if_neg hyz, Nat.blt_eq] at h2
          rw [if_neg (by omega : ¬x.toNat = z.toNat), Nat.blt_eq]
          omega
        · rw [if_neg hxy, Nat.blt_eq] at h1
          rw [if_pos hyz] at h2
          rw [if_neg (by omega : ¬x.toNat = z.toNat), Nat.blt_eq]
          omega
        · rw [if_neg hxy, Nat.blt_eq] at h1
          rw [if_neg hyz, Nat.blt_eq] at h2
          rw [if_neg (by omega : ¬x.toNat = z.toNat), Nat.blt_eq]
          omega

instance : IsTotal String (fun a b => pyStrLe a b = true) :=
  ⟨fun a b => pyStrLeAux_total a.data b.data⟩

instance : IsTrans String (fun a b => pyStrLe a b = true) :=
  ⟨fun a b c => pyStrLeAux_trans a.data b.data c.data⟩

theorem pySorted_sorted (l : List String) :
    (pySorted l).Sorted (fun a b => pyStrLe a b = true) :=
  List.sorted_insertionSort _ l

theorem pySorted_perm (l : List String) : (pySorted l).Perm l :=
  List.perm_insertionSort _ l

theorem mem_pySorted {a : String} {l : List String} : a ∈ pySorted l ↔ a ∈ l :=
  (pySorted_perm l).mem_iff

theorem nodup_pySorted {l : List String} (h : l.Nodup) : (pySorted l).Nodup :=
  (pySorted_perm l).nodup_iff.mpr h

theorem infixOf_commaJoin {x : String} {l : List String} (h : x ∈ l) :
    x.data <:+: (commaJoin l).data := by
  induction l with
  | nil => cases h
  | cons y ys ih =>
    cases ys with
    | nil =>
      rcases List.mem_singleton.mp h with rfl
      exact List.infix_refl _
    | cons z zs =>
      rcases List.mem_cons.mp h with rfl | hmem
      · show x.data <:+: (x ++ ", " ++ commaJoin (z :: zs)).data
        rw [String.data_append, String.data_append, List.append_assoc]
        exact (List.prefix_append _ _).isInfix
      · show x.data <:+: (y ++ ", " ++ commaJoin (z :: zs)).data
        rw [String.data_append]
        exact (ih hmem).trans (List.suffix_append _ _).isInfix

/-! ### C4, C5, C6 -/

/-- C4: a `get_table` call for a name missing from the catalog fails with a
table-not-found error whose message contains every available table name.
The embedding is pure — the `AccessDB` value (hence the catalog) is
untouched by the failed call by construction. -/
theorem getTable_notFound_lists_available (mm : ModelMap) (db : AccessDB)
    (table_name : String) (validate : Bool)
    (h : table_name ∉ get_available_tables db) :
    ∃ msg, get_table_data mm db table_name validate = .error msg ∧
      ∀ t ∈ get_available_tables db, t.data <:+: msg.data := by
  refine ⟨"Table '" ++ table_name ++ "' not found. Available tables: "
    ++ commaJoin (get_available_tables db), ?_, fun t ht => ?_⟩
  · simp [get_table_data, h]
  · rw [String.data_append]
    exact (infixOf_commaJoin ht).trans (List.suffix_append _ _).isInfix

/-- C4 witness: a concrete database with tables `T1`, `T2` and the missing
name `Zed`. -/
def demoDB : AccessDB :=
  ⟨["T2", "T1"], fun n => if n = "T1" then .ok [("c", [.vint 3])] else .error "boom"⟩

theorem getTable_notFound_lists_available_witness :
    "Zed" ∉ get_available_tables demoDB ∧
      ∃ msg, get_table_data [] demoDB "Zed" false = .error msg ∧
        ∀ t ∈ get_available_tables demoDB, t.data <:+: msg.data :=
  ⟨by decide, getTable_notFound_lists_available [] demoDB "Zed" false (by decide)⟩

/-- C5: the available-table list is lexicographically sorted, has no
duplicates (the catalog is a dict, so its key list has none), and
`table_exists` is true exactly for its members. -/
theorem listTables_sorted_nodup_exists (db : AccessDB) (h : db.catalog.Nodup) :
    (get_available_tables db).Sorted (fun a b => pyStrLe a b = true) ∧
      (get_available_tables db).Nodup ∧
      ∀ name, table_exists db name = true ↔ name ∈ get_available_tables db := by
  refine ⟨pySorted_sorted _, nodup_pySorted h, fun name => ?_⟩
  exact List.elem_iff

theorem listTables_sorted_nodup_exists_witness :
    (demoDB.catalog.Nodup) ∧
      ((get_available_tables demoDB).Sorted (fun a b => pyStrLe a b = true) ∧
        (get_available_tables demoDB).Nodup ∧
        ∀ name, table_exists demoDB name = true ↔ name ∈ get_available_tables demoDB) :=
  ⟨by decide, listTables_sorted_nodup_exists demoDB (by decide)⟩

/-- C6: for a table with no registered model, requesting validation is a
no-op — `get_table` returns the same result with `validate` true as with
`validate` false, and is not an error beyond what the raw call reports. -/
theorem getTable_validate_noop_without_model (mm : ModelMap) (db : AccessDB)
    (table_name : String) (h : mm.lookup table_name = none) :
    get_table_data mm db table_name true = get_table_data mm db table_name false := by
  unfold get_table_data
  by_cases hmem : table_name ∉ get_available_tables db
  · simp [hmem]
  · simp only [hmem, if_false]
    cases db.parse_table table_name with
    | error e => rfl
    | ok raw => simp [h]

theorem getTable_validate_noop_without_model_witness :
    (([("Config", PdModel.mk [⟨"Config_ID", .intT, false⟩])] : ModelMap).lookup "T1" = none) ∧
      get_table_data [("Config", PdModel.mk [⟨"Config_ID", .intT, false⟩])] demoDB "T1" true
        = get_table_data [("Config", PdModel.mk [⟨"Config_ID", .intT, false⟩])] demoDB "T1" false :=
  ⟨by decide, getTable_validate_noop_without_model _ demoDB "T1" (by decide)⟩

/-! ### C3: pattern selection -/

/-- The condition under which one pattern selects one table name in
`select_tables`: a case-sensitive glob match or a case-insensitive exact
match. -/
def matchesPattern (t p : String) : Bool :=
  fnmatch t p || pyLower t = pyLower p

theorem mem_selectFold (available_tables : List String) (patterns : List String)
    (acc : List String) (t : String) :
    t ∈ patterns.foldl (fun acc pattern =>
        acc ++ available_tables.filter (fun t => fnmatch t pattern)
            ++ available_tables.filter (fun t => pyLower t = pyLower pattern)) acc ↔
      t ∈ acc ∨ (t ∈ available_tables ∧ ∃ p ∈ patterns, matchesPattern t p = true) := by
  induction patterns generalizing acc with
  | nil => simp
  | cons q qs ih =>
    rw [List.foldl_cons, ih]
    simp only [List.mem_append, List.mem_filter, matchesPattern, Bool.or_eq_true,
      decide_eq_true_eq, List.mem_cons]
    constructor
    · rintro (((h | h) | h) | h)
      · exact Or.inl h
      · exact Or.inr ⟨h.1, q, Or.inl rfl, Or.inl h.2⟩
      · exact Or.inr ⟨h.1, q, Or.inl rfl, Or.inr h.2⟩
      · exact Or.inr ⟨h.1, h.2.choose, Or.inr (by
          have := h.2.choose_spec
          exact this.1), by
          have := h.2.choose_spec
          exact this.2⟩
    · rintro (h | ⟨hav, p, (rfl | hp), hm⟩)
      · exact Or.inl (Or.inl (Or.inl h))
      · rcases hm with hm | hm
        · exact Or.inl (Or.inl (Or.inr ⟨hav, hm⟩))
        · exact Or.inl (Or.inr ⟨hav, hm⟩)
      · exact Or.inr ⟨hav, p, hp, hm⟩

/-- C3 counterexample: with no patterns given and an empty catalog,
`select_tables` returns an empty selection without raising, so "the
returned selection is never empty" fails as universally stated. -/
theorem select_tables_counterexample :
    select_tables ([] : List String) [] = .ok [] := by decide

/-- C3 (amended): with no patterns, all catalog tables are returned (an
empty list when the catalog is empty); with one or more patterns, a
successful result is a nonempty sorted deduplicated list containing
exactly the catalog names that glob-match some pattern case-sensitively or
equal some pattern case-insensitively, and if no name matches any pattern
the call fails with an error naming every requested pattern and listing
every available table. -/
theorem select_tables_characterization (available_tables table_patterns : List String) :
    (table_patterns = [] → select_tables available_tables table_patterns = .ok available_tables) ∧
    (table_patterns ≠ [] →
      match select_tables available_tables table_patterns with
      | .ok l =>
        l ≠ [] ∧ l.Sorted (fun a b => pyStrLe a b = true) ∧ l.Nodup ∧
          ∀ t, t ∈ l ↔ t ∈ available_tables ∧ ∃ p ∈ table_patterns, matchesPattern t p = true
      | .error msg =>
        (∀ t ∈ available_tables, ∀ p ∈ table_patterns, matchesPattern t p = false) ∧
          (∀ p ∈ table_patterns, p.data <:+: msg.data) ∧
          ∀ t ∈ available_tables, t.data <:+: msg.data) := by
  constructor
  · intro h
    simp [select_tables, h]
  · intro hne
    rw [select_tables, if_neg (by simpa using hne)]
    set collected := table_patterns.foldl (fun acc pattern =>
      acc ++ available_tables.filter (fun t => fnmatch t pattern)
          ++ available_tables.filter (fun t => pyLower t = pyLower pattern)) [] with hcoll
    by_cases hempty : (pySorted collected.dedup).isEmpty
    · rw [if_pos hempty]
      have hnil : pySorted collected.dedup = [] := List.isEmpty_iff.mp hempty
      have hnomem : ∀ t, t ∉ collected := by
        intro t ht
        have : t ∈ pySorted collected.dedup := mem_pySorted.mpr (List.mem_dedup.mpr ht)
        rw [hnil] at this
        cases this
      refine ⟨fun t htav p hp => ?_, fun p hp => ?_, fun t ht => ?_⟩
      · by_contra hmatch
        exact hnomem t ((mem_selectFold available_tables table_patterns [] t).mpr
          (Or.inr ⟨htav, p, hp, by revert hmatch; cases matchesPattern t p <;> simp⟩))
      · show p.data <:+: (("No tables found matching patterns: " ++ commaJoin table_patterns
          ++ ". Available tables: ") ++ commaJoin available_tables).data
        rw [String.data_append, String.data_append, String.data_append, List.append_assoc,
          List.append_assoc]
        exact ((infixOf_commaJoin hp).trans (List.prefix_append _ _).isInfix).trans
          (List.suffix_append _ _).isInfix
      · show t.data <:+: (("No tables found matching patterns: " ++ commaJoin table_patterns
          ++ ". Available tables: ") ++ commaJoin available_tables).data
        rw [String.data_append]
        exact (infixOf_commaJoin ht).trans (List.suffix_append _ _).isInfix
    · rw [if_neg hempty]
      refine ⟨by simpa using hempty, pySorted_sorted _,
        nodup_pySorted (List.nodup_dedup _), fun t => ?_⟩
      rw [mem_pySorted, List.mem_dedup]
      have h := mem_selectFold available_tables table_patterns [] t
      rw [← hcoll] at h
      rw [h]
      simp

/-- C3 witness: the spec's example — pattern `GeniSys*` over the four-table
catalog selects exactly the two GeniSys tables. -/
theorem select_tables_characterization_witness :
    select_tables ["Config", "Events", "GeniSysObjects", "GeniSysPanels"] ["GeniSys*"]
        = .ok ["GeniSysObjects", "GeniSysPanels"] ∧
      ((["GeniSys*"] = ([] : List String) →
          select_tables ["Config", "Events", "GeniSysObjects", "GeniSysPanels"] ["GeniSys*"]
            = .ok ["Config", "Events", "GeniSysObjects", "GeniSysPanels"]) ∧
        (["GeniSys*"] ≠ ([] : List String) →
          match select_tables ["Config", "Events", "GeniSysObjects", "GeniSysPanels"]
              ["GeniSys*"] with
          | .ok l =>
            l ≠ [] ∧ l.Sorted (fun a b => pyStrLe a b = true) ∧ l.Nodup ∧
              ∀ t, t ∈ l ↔ t ∈ ["Config", "Events", "GeniSysObjects", "GeniSysPanels"]
                ∧ ∃ p ∈ ["GeniSys*"], matchesPattern t p = true
          | .error msg =>
            (∀ t ∈ ["Config", "Events", "GeniSysObjects", "GeniSysPanels"],
                ∀ p ∈ ["GeniSys*"], matchesPattern t p = false) ∧
              (∀ p ∈ ["GeniSys*"], p.data <:+: msg.data) ∧
              ∀ t ∈ ["Config", "Events", "GeniSysObjects", "GeniSysPanels"],
                t.data <:+: msg.data)) :=
  ⟨by decide, select_tables_characterization _ _⟩

/-! ### C7: database summary -/

/-- Specification-side record count that `get_database_summary` attributes
to one table: `0` for tables whose decode raises (they are skipped) or that
have no columns, else the length of the first column's value list. -/
def specTableRecords (mm : ModelMap) (db : AccessDB) (t : String) : Nat :=
  match get_table_data mm db t false with
  | .error _ => 0
  | .ok data =>
    if data.isEmpty then 0
    else
      let columns := data.map Prod.fst
      if columns.isEmpty then 0
      else ((data.lookup (columns.headI)).getD []).length

theorem except_isOk_ok {ε α : Type} (a : α) : (Except.ok a : Except ε α).isOk = true := rfl

theorem except_isOk_error {ε α : Type} (e : ε) :
    (Except.error e : Except ε α).isOk = false := rfl

theorem summaryStep_eq (mm : ModelMap) (db : AccessDB) (t : String) (a b c : Nat) :
    summaryStep mm db (a, b, c) t
      = (a + specTableRecords mm db t,
         b + (if 0 < specTableRecords mm db t then 1 else 0),
         c + (if (get_table_data mm db t false).isOk && (mm.lookup t).isSome
              then 1 else 0)) := by
  unfold summaryStep
  cases hdec : get_table_data mm db t false with
  | error e =>
    have hrec : specTableRecords mm db t = 0 := by
      unfold specTableRecords
      rw [hdec]
    rw [hrec]
    simp [except_isOk_error]
  | ok data =>
    have hrec : specTableRecords mm db t
        = (if data.isEmpty then 0
           else if (data.map Prod.fst).isEmpty then 0
           else ((data.lookup ((data.map Prod.fst).headI)).getD []).length) := by
      unfold specTableRecords
      rw [hdec]
    rw [hrec, except_isOk_ok, Bool.true_and]
    by_cases hempty : data.isEmpty
    · simp only [hempty, if_true]
      by_cases hsome : (mm.lookup t).isSome <;> simp [hsome]
    · have hcols : (data.map Prod.fst).isEmpty = false := by
        cases data with
        | nil => simp at hempty
        | cons p ps => rfl
      simp only [hempty, hcols, Bool.false_eq_true, if_false]
      by_cases hsome : (mm.lookup t).isSome <;>
        by_cases hrc : 0 < ((data.lookup ((data.map Prod.fst).headI)).getD []).length <;>
          simp [hsome, hrc] <;> omega

theorem summary_foldl (mm : ModelMap) (db : AccessDB) (l : List String) (a b c : Nat) :
    l.foldl (summaryStep mm db) (a, b, c)
      = (a + (l.map (specTableRecords mm db)).sum,
         b + l.countP (fun t => decide (0 < specTableRecords mm db t)),
         c + l.countP (fun t => (get_table_data mm db t false).isOk && (mm.lookup t).isSome)) := by
  induction l generalizing a b c with
  | nil => simp
  | cons t ts ih =>
    rw [List.foldl_cons, summaryStep_eq, ih]
    refine Prod.ext ?_ (Prod.ext ?_ ?_)
    · simp only [List.map_cons, List.sum_cons]
      omega
    · simp only [List.countP_cons, decide_eq_true_eq]
      by_cases h : 0 < specTableRecords mm db t <;> simp [h] <;> omega
    · simp only [List.countP_cons]
      by_cases h : ((get_table_data mm db t false).isOk && (mm.lookup t).isSome) = true
        <;> simp [h] <;> omega

/-- Concrete checks that `format_coverage` reproduces CPython's printed
values, including the double-rounding artifacts of binary64: the exact
quotient `23/80 * 100 = 28.75` would round half-to-even to `28.8`, but the
nearest double to `23/80` lies just below it and the program prints
`28.7%`; likewise `49/80` prints `61.3%` and `1/2000` prints `0.1%`. -/
theorem format_coverage_binary64_check :
    format_coverage 23 80 = "28.7%" ∧ format_coverage 49 80 = "61.3%" ∧
      format_coverage 109 400 = "27.3%" ∧ format_coverage 1 2000 = "0.1%" ∧
      format_coverage 1 3 = "33.3%" ∧ format_coverage 9 16 = "56.2%" ∧
      format_coverage 0 7 = "0.0%" ∧ format_coverage 5 5 = "100.0%" := by
  decide

/-- C7: `get_database_summary` reports the full catalog size as
`total_tables`; the accumulated totals range over exactly the tables whose
decode succeeds (tables that raise contribute nothing to any total and do
not abort the summary); and the model-coverage string is `"0%"` for an
empty catalog and otherwise `tables_with_models / total_tables * 100`
formatted to one decimal place with a trailing `%`, computed through
IEEE-754 binary64 arithmetic exactly as the program computes it (see
`format_coverage` and `format_coverage_binary64_check`). -/
theorem summary_characterization (mm : ModelMap) (db : AccessDB) :
    (get_database_summary mm db).total_tables = (get_available_tables db).length ∧
    (get_database_summary mm db).total_records
      = ((get_available_tables db).map (specTableRecords mm db)).sum ∧
    (get_database_summary mm db).tables_with_data
      = (get_available_tables db).countP (fun t => decide (0 < specTableRecords mm db t)) ∧
    (get_database_summary mm db).tables_with_models
      = (get_available_tables db).countP
          (fun t => (get_table_data mm db t false).isOk && (mm.lookup t).isSome) ∧
    (get_database_summary mm db).model_coverage
      = (if (get_available_tables db).isEmpty then "0%"
         else format_coverage
           ((get_available_tables db).countP
             (fun t => (get_table_data mm db t false).isOk && (mm.lookup t).isSome))
           (get_available_tables db).length) := by
  simp only [get_database_summary]
  rw [summary_foldl]
  simp

/-! ### C8: table info -/

/-- C8: for a name present in the catalog, `get_table_info` returns (never
raises) a record whose `column_count` is the length of its `columns` list;
when the decode raises, the record is the degraded one (empty columns, zero
counts, the error message attached); when the decode succeeds, `columns`
is the raw column list and `record_count` is the length of the first
column's value list (`0` when there are no columns). -/
theorem tableInfo_characterization (mm : ModelMap) (db : AccessDB) (table_name : String)
    (h : table_exists db table_name = true) :
    ∃ info, get_table_info mm db table_name = .ok info ∧
      info.column_count = info.columns.length ∧
      (∀ e, get_table_data mm db table_name false = .error e →
        info = ⟨table_name, [], 0, 0, false, some e⟩) ∧
      (∀ data, get_table_data mm db table_name false = .ok data →
        info.columns = data.map Prod.fst ∧ info.error = none ∧
        info.record_count = match data with | [] => 0 | p :: _ => p.2.length) := by
  simp only [get_table_info, h, Bool.true_eq_false, if_false]
  cases hdec : get_table_data mm db table_name false with
  | error e =>
    refine ⟨_, rfl, rfl, fun e' he' => ?_, fun data hdata => ?_⟩
    · cases he'
      rfl
    · cases hdata
  | ok data =>
    refine ⟨_, rfl, rfl, fun e' he' => ?_, fun data' hdata => ?_⟩
    · cases he'
    · cases hdata
      cases data with
      | nil => exact ⟨rfl, rfl, rfl⟩
      | cons p ps =>
        rcases p with ⟨c, vs⟩
        refine ⟨?_, rfl, ?_⟩
        · simp
        · simp [List.lookup_cons]

theorem tableInfo_characterization_witness :
    table_exists demoDB "T1" = true ∧
      ∃ info, get_table_info [] demoDB "T1" = .ok info ∧
        info.column_count = info.columns.length ∧
        (∀ e, get_table_data [] demoDB "T1" false = .error e →
          info = ⟨"T1", [], 0, 0, false, some e⟩) ∧
        (∀ data, get_table_data [] demoDB "T1" false = .ok data →
          info.columns = data.map Prod.fst ∧ info.error = none ∧
          info.record_count = match data with | [] => 0 | p :: _ => p.2.length) :=
  ⟨by decide, tableInfo_characterization [] demoDB "T1" (by decide)⟩

/-! ### Association-list lookup lemmas -/

theorem lookup_map_pair {β : Type} (f : String → β) {l : List String} {x : String}
    (h : x ∈ l) : (l.map (fun c => (c, f c))).lookup x = some (f x) := by
  induction l with
  | nil => cases h
  | cons c cs ih =>
    by_cases hx : x = c
    · subst hx
      simp [List.lookup_cons]
    · rcases List.mem_cons.mp h with rfl | hmem
      · exact absurd rfl hx
      · have hb : (x == c) = false := beq_eq_false_iff_ne.mpr hx
        rw [List.map_cons, List.lookup_cons, hb]
        exact ih hmem

theorem lookup_of_mem_nodup {β : Type} {l : List (String × β)} {p : String × β}
    (hnd : (l.map Prod.fst).Nodup) (hp : p ∈ l) : l.lookup p.1 = some p.2 := by
  induction l with
  | nil => cases hp
  | cons q qs ih =>
    rcases q with ⟨k, v⟩
    rcases List.mem_cons.mp hp with rfl | hmem
    · simp [List.lookup_cons]
    · have hp1 : p.1 ∈ qs.map Prod.fst := List.mem_map_of_mem Prod.fst hmem
      have hb : (p.1 == k) = false :=
        beq_eq_false_iff_ne.mpr (fun he => (List.nodup_cons.mp hnd).1 (he ▸ hp1))
      rw [List.lookup_cons, hb]
      exact ih (List.nodup_cons.mp hnd).2 hmem

/-! ### C9: JSON export structure -/

/-- C9: the single-table JSON export value has `record_count` equal to the
length of `records`, one record per row of the first column, every record's
key list equal to the exported `columns` list, and (for dict-shaped input,
i.e. no duplicate column names) each record reads column values by index
with `None` beyond the end of a short column. -/
theorem jsonExport_characterization (provider_mode table_name : String)
    (table_data : TableData) :
    (export_single_table_data provider_mode table_name table_data).record_count
      = (export_single_table_data provider_mode table_name table_data).records.length ∧
    (export_single_table_data provider_mode table_name table_data).records.length
      = numRows table_data ∧
    (∀ r ∈ (export_single_table_data provider_mode table_name table_data).records,
      r.map Prod.fst = (export_single_table_data provider_mode table_name table_data).columns) ∧
    ((table_data.map Prod.fst).Nodup →
      ∀ i, i < numRows table_data → ∀ p ∈ table_data,
        ∃ r, (export_single_table_data provider_mode table_name table_data).records[i]?
            = some r ∧ r.lookup p.1 = some (p.2.getD i .vnull)) := by
  cases table_data with
  | nil =>
    exact ⟨rfl, rfl, fun r hr => absurd hr (by simp [export_single_table_data,
      convert_to_records]), fun _ i hi => absurd hi (by simp [numRows])⟩
  | cons q qs =>
    have hrec : (export_single_table_data provider_mode table_name (q :: qs)).records
        = (List.range q.2.length).map (fun i => ((q :: qs).map Prod.fst).map
            (fun c => (c, (((q :: qs).lookup c).getD []).getD i .vnull))) := rfl
    refine ⟨rfl, ?_, ?_, ?_⟩
    · rw [hrec]
      simp [numRows]
    · intro r hr
      rw [hrec] at hr
      rcases List.mem_map.mp hr with ⟨i, _, rfl⟩
      show _ = (export_single_table_data provider_mode table_name (q :: qs)).columns
      simp [export_single_table_data]
    · intro hnd i hi p hp
      refine ⟨((q :: qs).map Prod.fst).map
        (fun c => (c, (((q :: qs).lookup c).getD []).getD i .vnull)), ?_, ?_⟩
      · rw [hrec, List.getElem?_map, List.getElem?_range (by simpa [numRows] using hi)]
        rfl
      · rw [lookup_map_pair _ (List.mem_map_of_mem Prod.fst hp),
          lookup_of_mem_nodup hnd hp]
        rfl

/-- C9 witness: a concrete two-column table with a short second column; the
second record carries the `None` padding for it. -/
theorem jsonExport_characterization_witness :
    (export_single_table_data "raw" "T" [("a", [.vint 1, .vint 2]), ("b", [.vstr "x"])]).records
        = [[("a", .vint 1), ("b", .vstr "x")], [("a", .vint 2), ("b", .vnull)]] ∧
      ((export_single_table_data "raw" "T"
            [("a", [.vint 1, .vint 2]), ("b", [.vstr "x"])]).record_count
          = (export_single_table_data "raw" "T"
              [("a", [.vint 1, .vint 2]), ("b", [.vstr "x"])]).records.length ∧
        (export_single_table_data "raw" "T"
            [("a", [.vint 1, .vint 2]), ("b", [.vstr "x"])]).records.length
          = numRows [("a", [.vint 1, .vint 2]), ("b", [.vstr "x"])] ∧
        (∀ r ∈ (export_single_table_data "raw" "T"
            [("a", [.vint 1, .vint 2]), ("b", [.vstr "x"])]).records,
          r.map Prod.fst = (export_single_table_data "raw" "T"
            [("a", [.vint 1, .vint 2]), ("b", [.vstr "x"])]).columns) ∧
        (([("a", [Value.vint 1, Value.vint 2]),
              ("b", [Value.vstr "x"])].map Prod.fst).Nodup →
          ∀ i, i < numRows [("a", [.vint 1, .vint 2]), ("b", [.vstr "x"])] →
            ∀ p ∈ [("a", [Value.vint 1, Value.vint 2]), ("b", [Value.vstr "x"])],
              ∃ r, (export_single_table_data "raw" "T"
                  [("a", [.vint 1, .vint 2]), ("b", [.vstr "x"])]).records[i]?
                  = some r ∧ r.lookup p.1 = some (p.2.getD i .vnull))) :=
  ⟨by decide, jsonExport_characterization "raw" "T"
    [("a", [.vint 1, .vint 2]), ("b", [.vstr "x"])]⟩

/-! ### C10: list_tables returns a fresh copy -/

theorem getElem?_append_self {α : Type} (l : List α) (v : α) :
    (l ++ [v])[l.length]? = some v := by
  rw [List.getElem?_append]
  simp

theorem getElem?_append_lt {α : Type} (l : List α) (v : α) {i : Nat} (h : i < l.length) :
    (l ++ [v])[i]? = l[i]? := by
  rw [List.getElem?_append]
  simp [h]

/-- The invariant tying a live session to its catalog: every address handed
to the client is allocated, and the cached list (when present) is
allocated, holds the sorted catalog, and was never handed to the client. -/
def SessionInv (catalog : List String) (s : Session) (addrs : List Nat) : Prop :=
  s.catalog = catalog ∧
  (∀ r ∈ addrs, r < s.heap.length) ∧
  (∀ a, s.cacheAddr = some a →
    a < s.heap.length ∧ s.heap[a]? = some (pySorted catalog) ∧ a ∉ addrs)

theorem SessionInv.weaken {catalog : List String} {s : Session} {addrs : List Nat} {r : Nat}
    (h : SessionInv catalog s (addrs ++ [r])) : SessionInv catalog s addrs := by
  obtain ⟨hc, hb, hca⟩ := h
  refine ⟨hc, fun x hx => hb x (List.mem_append_left _ hx), fun a ha => ?_⟩
  obtain ⟨h1, h2, h3⟩ := hca a ha
  exact ⟨h1, h2, fun hmem => h3 (List.mem_append_left _ hmem)⟩

theorem listTablesOp_spec (catalog : List String) (s : Session) (addrs : List Nat)
    (h : SessionInv catalog s addrs) :
    SessionInv catalog (listTablesOp s).1 (addrs ++ [(listTablesOp s).2]) ∧
      (listTablesOp s).1.heap.getD (listTablesOp s).2 [] = pySorted catalog := by
  obtain ⟨hcat, haddr, hcache⟩ := h
  cases hca : s.cacheAddr with
  | none =>
    have hv : (s.heap ++ [pySorted s.catalog]).getD s.heap.length [] = pySorted s.catalog := by
      rw [List.getD_eq_getElem?_getD, getElem?_append_self]
      rfl
    simp only [listTablesOp, hca, hv]
    constructor
    · refine ⟨hcat, fun x hx => ?_, fun a ha => ?_⟩
      · simp only [List.length_append, List.length_singleton]
        rcases List.mem_append.mp hx with hx | hx
        · have := haddr x hx
          omega
        · rcases List.mem_singleton.mp hx with rfl
          simp
      · cases ha
        have hlt : s.heap.length < (s.heap ++ [pySorted s.catalog]).length := by
          simp
        refine ⟨by simp, ?_, ?_⟩
        · rw [getElem?_append_lt _ _ hlt, getElem?_append_self, hcat]
        · intro hmem
          rcases List.mem_append.mp hmem with hmem | hmem
          · exact absurd (haddr _ hmem) (by omega)
          · rcases List.mem_singleton.mp hmem with heq
            simp only [List.length_append, List.length_singleton] at heq
            omega
    · rw [List.getD_eq_getElem?_getD, getElem?_append_self, hcat]
      rfl
  | some a =>
    obtain ⟨ha, hv, hna⟩ := hcache a hca
    have hgd : s.heap.getD a [] = pySorted catalog := by
      rw [List.getD_eq_getElem?_getD, hv]
      rfl
    simp only [listTablesOp, hca, hgd]
    constructor
    · refine ⟨hcat, fun x hx => ?_, fun b hb => ?_⟩
      · simp only [List.length_append, List.length_singleton]
        rcases List.mem_append.mp hx with hx | hx
        · have := haddr x hx
          omega
        · rcases List.mem_singleton.mp hx with rfl
          omega
      · cases hb
        refine ⟨by simp only [List.length_append, List.length_singleton]; omega,
          by rw [getElem?_append_lt _ _ ha, hv], ?_⟩
        intro hmem
        rcases List.mem_append.mp hmem with hmem | hmem
        · exact hna hmem
        · rcases List.mem_singleton.mp hmem with heq
          omega
    · rw [List.getD_eq_getElem?_getD, getElem?_append_self]
      rfl

theorem mutate_inv {catalog : List String} {s : Session} {addrs : List Nat}
    (h : SessionInv catalog s addrs) {a : Nat} (ha : a ∈ addrs) (v : List String) :
    SessionInv catalog { s with heap := s.heap.set a v } addrs := by
  obtain ⟨hcat, haddr, hcache⟩ := h
  refine ⟨hcat, fun x hx => by simpa using haddr x hx, fun c hc => ?_⟩
  obtain ⟨h1, h2, h3⟩ := hcache c hc
  refine ⟨by simpa using h1, ?_, h3⟩
  rw [List.getElem?_set_ne (fun he => h3 (by rw [← he]; exact ha))]
  exact h2

/-- The observation sequence the client should see: every `list_tables`
call yields the sorted catalog, every `table_exists` call yields membership
in it, and mutations yield nothing. -/
def canonicalResults (catalog : List String) (evs : List ClientEv) : List CallResult :=
  evs.filterMap (fun ev =>
    match ev with
    | .callList => some (.listed (pySorted catalog))
    | .callExists name => some (.existed ((pySorted catalog).contains name))
    | .mutate _ _ => none)

theorem runSession_spec (catalog : List String) (evs : List ClientEv) :
    ∀ s addrs, SessionInv catalog s addrs →
      runSession s addrs evs = canonicalResults catalog evs := by
  induction evs with
  | nil => intro s addrs _; rfl
  | cons ev evs ih =>
    intro s addrs h
    cases ev with
    | callList =>
      obtain ⟨hinv, hval⟩ := listTablesOp_spec catalog s addrs h
      show CallResult.listed ((listTablesOp s).1.heap.getD (listTablesOp s).2 [])
          :: runSession (listTablesOp s).1 (addrs ++ [(listTablesOp s).2]) evs = _
      rw [hval, ih _ _ hinv]
      rfl
    | callExists name =>
      obtain ⟨hinv, hval⟩ := listTablesOp_spec catalog s addrs h
      show CallResult.existed
            (((listTablesOp s).1.heap.getD (listTablesOp s).2 []).contains name)
          :: runSession (listTablesOp s).1 addrs evs = _
      rw [hval, ih _ _ hinv.weaken]
      rfl
    | mutate k v =>
      show (match addrs[k]? with
        | some a => runSession { s with heap := s.heap.set a v } addrs evs
        | none => runSession s addrs evs) = _
      cases haddr : addrs[k]? with
      | some a =>
        have hmem : a ∈ addrs := List.getElem?_mem haddr
        show runSession { s with heap := s.heap.set a v } addrs evs = _
        rw [ih _ _ (mutate_inv h hmem v)]
        rfl
      | none =>
        show runSession s addrs evs = _
        rw [ih _ _ h]
        rfl

/-- C10: against a freshly opened session, any interleaving of
`list_tables` calls, `table_exists` calls, and in-place mutations of the
list objects previous `list_tables` calls returned produces the canonical
observations: every `list_tables` call returns a list equal to the sorted
catalog (so any two calls return equal lists) and every `table_exists`
call reports membership in it — client mutations never leak into later
results, because `list_tables` hands out a fresh copy of its cache. -/
theorem listTables_fresh_copy (catalog : List String) (evs : List ClientEv) :
    runSession (initSession catalog) [] evs = canonicalResults catalog evs :=
  runSession_spec catalog evs _ _ ⟨rfl, fun x hx => absurd hx (List.not_mem_nil x),
    fun a ha => nomatch ha⟩

/-! ### Characterization of the materializer (`_validate_table_data`) -/

theorem lookup_eq_none_of_not_mem {β : Type} {l : List (String × β)} {x : String}
    (h : x ∉ l.map Prod.fst) : l.lookup x = none := by
  induction l with
  | nil => rfl
  | cons q qs ih =>
    rcases q with ⟨k, v⟩
    have hxk : (x == k) = false :=
      beq_eq_false_iff_ne.mpr (fun he => h (by simp [he]))
    rw [List.lookup_cons, hxk]
    exact ih (fun hmem => h (by simp [hmem]))

theorem exists_lookup_of_mem_keys {β : Type} {l : List (String × β)} {x : String}
    (h : x ∈ l.map Prod.fst) : ∃ v, l.lookup x = some v := by
  induction l with
  | nil => cases h
  | cons q qs ih =>
    rcases q with ⟨k, v⟩
    by_cases hx : x = k
    · subst hx
      exact ⟨v, by simp [List.lookup_cons]⟩
    · have hxk : (x == k) = false := beq_eq_false_iff_ne.mpr hx
      rw [List.lookup_cons, hxk]
      exact ih (by simpa [hx] using h)

/-- Specification-side value of column `c` at row `i` in the materialized
output: the `model_dump()` value when the row validates, the raw (index-
padded) value when it does not. -/
def specCell (model : PdModel) (raw : TableData) (c : String) (i : Nat) : Value :=
  match model.validateRow (buildRow (raw.map Prod.fst) raw i) with
  | .ok dump => (dump.lookup c).getD .vnull
  | .error _ => ((raw.lookup c).getD []).getD i .vnull

/-- Specification-side: whether row `i` of the raw table fails validation
against the model. -/
def rowFails (model : PdModel) (raw : TableData) (i : Nat) : Bool :=
  !(model.validateRow (buildRow (raw.map Prod.fst) raw i)).isOk

/-- Specification-side: the collected error entry for row `i`, when it
fails. -/
def specErr (model : PdModel) (raw : TableData) (i : Nat) : Option (Nat × String) :=
  match model.validateRow (buildRow (raw.map Prod.fst) raw i) with
  | .ok _ => none
  | .error e => some (i, "Row " ++ toString i ++ ": " ++ e)

theorem validateRow_ok_keys {m : PdModel} {row dump : List (String × Value)}
    (h : m.validateRow row = .ok dump) : dump.map Prod.fst = m.names := by
  simp only [PdModel.validateRow] at h
  split at h
  · cases h
    rw [List.map_map, List.map_map, PdModel.names]
    apply List.map_congr_left
    intro f _
    dsimp only [Function.comp_apply]
    cases List.lookup f.name row <;> rfl
  · cases h

theorem foldl_appendCell (L : List (String × Value)) (hL : (L.map Prod.fst).Nodup)
    (d : TableData) :
    L.foldl (fun acc cv => appendCell acc cv.1 cv.2) d
      = d.map (fun p => match L.lookup p.1 with
          | some v => (p.1, p.2 ++ [v])
          | none => p) := by
  induction L generalizing d with
  | nil =>
    rw [List.foldl_nil]
    conv_lhs => rw [← List.map_id d]
    apply List.map_congr_left
    intro p _
    rfl
  | cons a L ih =>
    rcases a with ⟨k, v⟩
    rw [List.foldl_cons]
    have hnd' : (L.map Prod.fst).Nodup := (List.nodup_cons.mp (by simpa using hL)).2
    have hknotin : k ∉ L.map Prod.fst := (List.nodup_cons.mp (by simpa using hL)).1
    rw [ih hnd', appendCell, List.map_map]
    apply List.map_congr_left
    intro p _
    by_cases hpk : p.1 = k
    · have hnone : L.lookup p.1 = none := lookup_eq_none_of_not_mem (hpk ▸ hknotin)
      have hbeq : (p.1 == k) = true := beq_iff_eq.mpr hpk
      simp only [Function.comp_apply, if_pos hpk, List.lookup_cons, hbeq, hnone]
    · have hbeq : (p.1 == k) = false := beq_eq_false_iff_ne.mpr hpk
      simp only [Function.comp_apply, if_neg hpk, List.lookup_cons, hbeq]

theorem foldl_appendCell_fn (cols : List String) (g : String → Value) (hnd : cols.Nodup)
    (d : TableData) :
    cols.foldl (fun acc c => appendCell acc c (g c)) d
      = d.map (fun p => if p.1 ∈ cols then (p.1, p.2 ++ [g p.1]) else p) := by
  have hfm := List.foldl_map (fun c => (c, g c))
    (fun (acc : TableData) (cv : String × Value) => appendCell acc cv.1 cv.2) cols d
  have hcols : (cols.map (fun c => (c, g c))).map Prod.fst = cols := by
    rw [List.map_map]
    conv_rhs => rw [← List.map_id cols]
    rfl
  have hkeys : ((cols.map (fun c => (c, g c))).map Prod.fst).Nodup := by
    rw [hcols]
    exact hnd
  rw [← hfm, foldl_appendCell _ hkeys d]
  apply List.map_congr_left
  intro p _
  by_cases hp : p.1 ∈ cols
  · rw [lookup_map_pair g hp, if_pos hp]
  · rw [lookup_eq_none_of_not_mem (by rw [List.map_map]; simpa using hp), if_neg hp]

theorem validateLoop_cons_ok (model : PdModel) (cols : List String) (raw : TableData)
    (i : Nat) (rest : List Nat) (d : TableData) (errs : List (Nat × String))
    {dump : List (String × Value)}
    (hval : model.validateRow (buildRow cols raw i) = .ok dump) :
    validateLoop model cols raw (i :: rest) d errs
      = validateLoop model cols raw rest
          (dump.foldl (fun acc cv => appendCell acc cv.1 cv.2) d) errs := by
  simp only [validateLoop, hval]

theorem validateLoop_cons_err (model : PdModel) (cols : List String) (raw : TableData)
    (i : Nat) (rest : List Nat) (d : TableData) (errs : List (Nat × String))
    {e : String} (hval : model.validateRow (buildRow cols raw i) = .error e) :
    validateLoop model cols raw (i :: rest) d errs
      = validateLoop model cols raw rest
          (cols.foldl (fun acc c =>
            appendCell acc c (((buildRow cols raw i).lookup c).getD .vnull)) d)
          (errs ++ [(i, "Row " ++ toString i ++ ": " ++ e)]) := by
  simp only [validateLoop, hval]

theorem validateLoop_spec (model : PdModel) (raw : TableData)
    (hnd : (raw.map Prod.fst).Nodup)
    (hcov : ∀ c ∈ raw.map Prod.fst, c ∈ model.names)
    (hmn : model.names.Nodup) :
    ∀ (idxs : List Nat) (d : TableData) (errs : List (Nat × String)),
      d.map Prod.fst = raw.map Prod.fst →
      validateLoop model (raw.map Prod.fst) raw idxs d errs
        = (d.map (fun p => (p.1, p.2 ++ idxs.map (specCell model raw p.1))),
           errs ++ idxs.filterMap (specErr model raw)) := by
  intro idxs
  induction idxs with
  | nil =>
    intro d errs _
    simp only [validateLoop, List.map_nil, List.append_nil, List.filterMap_nil]
    conv_lhs => rw [← List.map_id d]
    rfl
  | cons i rest ih =>
    intro d errs hd
    cases hval : model.validateRow (buildRow (raw.map Prod.fst) raw i) with
    | ok dump =>
      rw [validateLoop_cons_ok model _ raw i rest d errs hval]
      have hkeys : dump.map Prod.fst = model.names := validateRow_ok_keys hval
      have hfold : dump.foldl (fun acc cv => appendCell acc cv.1 cv.2) d
          = d.map (fun p => (p.1, p.2 ++ [specCell model raw p.1 i])) := by
        rw [foldl_appendCell dump (by rw [hkeys]; exact hmn) d]
        apply List.map_congr_left
        intro p hp
        have hpk : p.1 ∈ dump.map Prod.fst := by
          rw [hkeys]
          exact hcov p.1 (hd ▸ List.mem_map_of_mem Prod.fst hp)
        obtain ⟨v, hv⟩ := exists_lookup_of_mem_keys hpk
        rw [hv]
        simp [specCell, hval, hv]
      rw [hfold, ih _ errs (by rw [List.map_map]; exact hd)]
      have hcells : ∀ p : String × List Value,
          (p.2 ++ [specCell model raw p.1 i]) ++ rest.map (specCell model raw p.1)
            = p.2 ++ (i :: rest).map (specCell model raw p.1) := by
        intro p
        rw [List.map_cons, List.append_assoc]
        rfl
      have herr : specErr model raw i = none := by
        simp [specErr, hval]
      rw [List.filterMap_cons, herr, List.map_map]
      congr 1
      apply List.map_congr_left
      intro p _
      simp only [Function.comp_apply]
      rw [hcells p]
    | error e =>
      rw [validateLoop_cons_err model _ raw i rest d errs hval]
      have hfold : (raw.map Prod.fst).foldl
          (fun acc c => appendCell acc c
            (((buildRow (raw.map Prod.fst) raw i).lookup c).getD .vnull)) d
          = d.map (fun p => (p.1, p.2 ++ [specCell model raw p.1 i])) := by
        rw [foldl_appendCell_fn _ _ hnd d]
        apply List.map_congr_left
        intro p hp
        have hpk : p.1 ∈ raw.map Prod.fst := hd ▸ List.mem_map_of_mem Prod.fst hp
        rw [if_pos hpk]
        have hbr : (buildRow (raw.map Prod.fst) raw i).lookup p.1
            = some (((raw.lookup p.1).getD []).getD i .vnull) :=
          lookup_map_pair _ hpk
        rw [hbr]
        simp [specCell, hval]
      rw [hfold, ih _ (errs ++ [(i, "Row " ++ toString i ++ ": " ++ e)])
        (by rw [List.map_map]; exact hd)]
      have herr : specErr model raw i = some (i, "Row " ++ toString i ++ ": " ++ e) := by
        simp [specErr, hval]
      rw [List.filterMap_cons, herr, List.map_map, List.append_assoc]
      congr 1
      apply List.map_congr_left
      intro p _
      simp only [Function.comp_apply]
      rw [List.map_cons, List.append_assoc]
      rfl

/-- Full characterization of `_validate_table_data` for dict-shaped raw
input whose columns are all declared model fields: column `c` of the
output holds, for each row index, the normalized value on validated rows
and the raw value on failed rows; the error list collects exactly one
entry per failing row index, in order. -/
theorem validate_table_data_spec (model : PdModel) (raw : TableData)
    (hnd : (raw.map Prod.fst).Nodup)
    (hcov : ∀ c ∈ raw.map Prod.fst, c ∈ model.names)
    (hmn : model.names.Nodup) :
    validate_table_data model raw
      = (raw.map (fun p => (p.1, (List.range (numRows raw)).map (specCell model raw p.1))),
         (List.range (numRows raw)).filterMap (specErr model raw)) := by
  cases hraw : raw with
  | nil => rfl
  | cons q qs =>
    rw [← hraw]
    have hstart : (raw.map (fun p => (p.1, ([] : List Value)))).map Prod.fst
        = raw.map Prod.fst := by
      rw [List.map_map]
      rfl
    have hbody := validateLoop_spec model raw hnd hcov hmn
      (List.range (numRows raw)) (raw.map (fun p => (p.1, ([] : List Value)))) [] hstart
    have : validate_table_data model raw
        = validateLoop model (raw.map Prod.fst) raw (List.range (numRows raw))
            (raw.map (fun p => (p.1, ([] : List Value)))) [] := by
      rw [hraw]
      rfl
    rw [this, hbody, List.map_map, List.nil_append]
    rfl

/-! ### Column-set preservation (no hypotheses) -/

theorem appendCell_keys (d : TableData) (c : String) (v : Value) :
    (appendCell d c v).map Prod.fst = d.map Prod.fst := by
  unfold appendCell
  rw [List.map_map]
  apply List.map_congr_left
  intro p _
  dsimp only [Function.comp_apply]
  by_cases hp : p.1 = c <;> simp [hp]

theorem foldl_appendCell_keys (L : List (String × Value)) (d : TableData) :
    (L.foldl (fun acc cv => appendCell acc cv.1 cv.2) d).map Prod.fst = d.map Prod.fst := by
  induction L generalizing d with
  | nil => rfl
  | cons a L ih => rw [List.foldl_cons, ih, appendCell_keys]

theorem foldl_appendCell_fn_keys (cols : List String) (g : String → Value) (d : TableData) :
    (cols.foldl (fun acc c => appendCell acc c (g c)) d).map Prod.fst = d.map Prod.fst := by
  induction cols generalizing d with
  | nil => rfl
  | cons c cs ih => rw [List.foldl_cons, ih, appendCell_keys]

theorem validateLoop_keys (model : PdModel) (cols : List String) (raw : TableData) :
    ∀ (idxs : List Nat) (d : TableData) (errs : List (Nat × String)),
      ((validateLoop model cols raw idxs d errs).1).map Prod.fst = d.map Prod.fst := by
  intro idxs
  induction idxs with
  | nil => intro d errs; rfl
  | cons i rest ih =>
    intro d errs
    cases hval : model.validateRow (buildRow cols raw i) with
    | ok dump =>
      rw [validateLoop_cons_ok model cols raw i rest d errs hval, ih, foldl_appendCell_keys]
    | error e =>
      rw [validateLoop_cons_err model cols raw i rest d errs hval, ih,
        foldl_appendCell_fn_keys]

theorem validate_table_data_keys (model : PdModel) (raw : TableData) :
    (validate_table_data model raw).1.map Prod.fst = raw.map Prod.fst := by
  cases raw with
  | nil => rfl
  | cons q qs =>
    show ((validateLoop model ((q :: qs).map Prod.fst) (q :: qs)
        (List.range (numRows (q :: qs)))
        ((q :: qs).map (fun p => (p.1, ([] : List Value)))) []).1).map Prod.fst = _
    rw [validateLoop_keys, List.map_map]
    rfl

/-! ### C2: validated output shape -/

/-- The `AVManufacturer` model of `models/genisys.py`: `AVManufacturer_ID`
overridden to `int | None`, `Manufacturer : str | None`. -/
def AVManufacturer : PdModel :=
  ⟨[⟨"AVManufacturer_ID", .intT, true⟩, ⟨"Manufacturer", .strT, true⟩]⟩

/-- The `AVModel` model of `models/genisys.py`: `AVModel_ID` overridden to
`int | None`, `AVManufacturer_ID : int | None`, `Model : str | None`. -/
def AVModel : PdModel :=
  ⟨[⟨"AVModel_ID", .intT, true⟩, ⟨"AVManufacturer_ID", .intT, true⟩, ⟨"Model", .strT, true⟩]⟩

/-- C2 counterexample: a one-row `AVManufacturer` table carrying a column
`Extra` that the model does not declare.  The row validates, and on success
only `model_dump()` keys are appended back, so the `Extra` column of the
output is empty — length 0 against a row count of 1.  Validation does keep
the column set but shortens the undeclared column. -/
theorem materialize_shape_counterexample :
    (validate_table_data AVManufacturer
        [("AVManufacturer_ID", [.vint 1]), ("Manufacturer", [.vstr "m"]), ("Extra", [.vint 7])]).2
        = [] ∧
      (validate_table_data AVManufacturer
          [("AVManufacturer_ID", [.vint 1]), ("Manufacturer", [.vstr "m"]),
            ("Extra", [.vint 7])]).1.lookup "Extra" = some [] ∧
      numRows [("AVManufacturer_ID", [Value.vint 1]), ("Manufacturer", [Value.vstr "m"]),
        ("Extra", [Value.vint 7])] = 1 := by
  decide

/-- C2 (amended): the materialized output always has exactly the raw column
set (validation never adds or removes columns), and — provided every raw
column is a declared field of the table's model — every output column has
the row count of the input as its length.  (An undeclared extra column is
not re-appended on successfully validated rows, which is what the
counterexample exhibits.) -/
theorem materialize_shape (model : PdModel) (raw : TableData) :
    ((validate_table_data model raw).1.map Prod.fst = raw.map Prod.fst) ∧
    ((raw.map Prod.fst).Nodup → (∀ c ∈ raw.map Prod.fst, c ∈ model.names) →
      model.names.Nodup →
      ∀ p ∈ (validate_table_data model raw).1, p.2.length = numRows raw) := by
  refine ⟨validate_table_data_keys model raw, fun hnd hcov hmn p hp => ?_⟩
  rw [validate_table_data_spec model raw hnd hcov hmn] at hp
  rcases List.mem_map.mp hp with ⟨q, _, rfl⟩
  simp

theorem materialize_shape_witness :
    (((([("AVManufacturer_ID", [Value.vint 1, Value.vnull]),
          ("Manufacturer", [Value.vstr "m", Value.vnull])] : TableData).map Prod.fst).Nodup) ∧
      (∀ c ∈ ([("AVManufacturer_ID", [Value.vint 1, Value.vnull]),
          ("Manufacturer", [Value.vstr "m", Value.vnull])] : TableData).map Prod.fst,
        c ∈ AVManufacturer.names) ∧
      AVManufacturer.names.Nodup) ∧
    ((validate_table_data AVManufacturer
        [("AVManufacturer_ID", [.vint 1, .vnull]),
          ("Manufacturer", [.vstr "m", .vnull])]).1.map Prod.fst
      = ([("AVManufacturer_ID", [Value.vint 1, Value.vnull]),
          ("Manufacturer", [Value.vstr "m", Value.vnull])] : TableData).map Prod.fst) ∧
    (∀ p ∈ (validate_table_data AVManufacturer
        [("AVManufacturer_ID", [.vint 1, .vnull]),
          ("Manufacturer", [.vstr "m", .vnull])]).1,
      p.2.length = numRows [("AVManufacturer_ID", [Value.vint 1, Value.vnull]),
        ("Manufacturer", [Value.vstr "m", Value.vnull])]) :=
  ⟨⟨by decide, by decide, by decide⟩,
    (materialize_shape AVManufacturer _).1,
    (materialize_shape AVManufacturer
      [("AVManufacturer_ID", [.vint 1, .vnull]),
        ("Manufacturer", [.vstr "m", .vnull])]).2 (by decide) (by decide) (by decide)⟩

/-! ### C1: per-row validation isolation -/

theorem filterMap_specErr_fst (model : PdModel) (raw : TableData) (l : List Nat) :
    (l.filterMap (specErr model raw)).map Prod.fst = l.filter (rowFails model raw) := by
  induction l with
  | nil => rfl
  | cons i rest ih =>
    rw [List.filterMap_cons, List.filter_cons]
    cases hval : model.validateRow (buildRow (raw.map Prod.fst) raw i) with
    | ok dump =>
      have h1 : specErr model raw i = none := by simp [specErr, hval]
      have h2 : rowFails model raw i = false := by simp [rowFails, hval, except_isOk_ok]
      rw [h1, h2]
      simpa using ih
    | error e =>
      have h1 : specErr model raw i = some (i, "Row " ++ toString i ++ ": " ++ e) := by
        simp [specErr, hval]
      have h2 : rowFails model raw i = true := by simp [rowFails, hval, except_isOk_error]
      rw [h1, h2]
      simpa using ih

/-- C1 counterexample: a two-row `AVModel` table with an undeclared column
`Extra`; row 0 validates, row 1 fails (`AVModel_ID = "x"` cannot coerce to
`int`).  Exactly one error is collected referencing row 1, yet the `Extra`
column of the output holds a single entry (row 1's raw value, at index 0)
instead of two entries with the raw value at index 1 — so "every column has
rowcount entries and the failing row's output equals its raw input for
every column" fails as stated. -/
theorem materialize_row_isolation_counterexample :
    (validate_table_data AVModel
        [("AVModel_ID", [.vint 1, .vstr "x"]), ("AVManufacturer_ID", [.vnull, .vnull]),
          ("Model", [.vnull, .vnull]), ("Extra", [.vint 7, .vint 8])]).2.map Prod.fst = [1] ∧
      (validate_table_data AVModel
          [("AVModel_ID", [.vint 1, .vstr "x"]), ("AVManufacturer_ID", [.vnull, .vnull]),
            ("Model", [.vnull, .vnull]), ("Extra", [.vint 7, .vint 8])]).1.lookup "Extra"
        = some [.vint 8] ∧
      numRows [("AVModel_ID", [Value.vint 1, Value.vstr "x"]),
        ("AVManufacturer_ID", [Value.vnull, Value.vnull]),
        ("Model", [Value.vnull, Value.vnull]),
        ("Extra", [Value.vint 7, Value.vint 8])] = 2 := by
  decide

/-- C1 (amended): for aligned dict-shaped raw data whose columns are all
declared fields of the registered model, materialization (which is total —
validation errors are collected, never raised): collects exactly one error
per failing row index, in row order; keeps every column at the input row
count; leaves each failing row's values equal to its raw input values in
every column; and replaces each validated row's values by the
schema-normalized `model_dump()` values. -/
theorem materialize_row_isolation (model : PdModel) (raw : TableData)
    (hnd : (raw.map Prod.fst).Nodup)
    (hcov : ∀ c ∈ raw.map Prod.fst, c ∈ model.names)
    (hmn : model.names.Nodup)
    (halign : ∀ p ∈ raw, p.2.length = numRows raw) :
    ((validate_table_data model raw).2.map Prod.fst
      = (List.range (numRows raw)).filter (rowFails model raw)) ∧
    (∀ p ∈ (validate_table_data model raw).1, p.2.length = numRows raw) ∧
    (∀ i, i < numRows raw → rowFails model raw i = true →
      ∀ p ∈ raw, ∃ ws, (validate_table_data model raw).1.lookup p.1 = some ws ∧
        ws[i]? = p.2[i]?) ∧
    (∀ i, i < numRows raw → rowFails model raw i = false →
      ∀ p ∈ raw, ∃ ws dump,
        (validate_table_data model raw).1.lookup p.1 = some ws ∧
        model.validateRow (buildRow (raw.map Prod.fst) raw i) = .ok dump ∧
        ws[i]? = some ((dump.lookup p.1).getD .vnull)) := by
  have hspec := validate_table_data_spec model raw hnd hcov hmn
  have hlook : ∀ p ∈ raw, (validate_table_data model raw).1.lookup p.1
      = some ((List.range (numRows raw)).map (specCell model raw p.1)) := by
    intro p hp
    rw [hspec]
    have hknd : ((raw.map (fun p => (p.1,
        (List.range (numRows raw)).map (specCell model raw p.1)))).map Prod.fst).Nodup := by
      rw [List.map_map]
      exact hnd
    exact lookup_of_mem_nodup hknd (List.mem_map_of_mem _ hp)
  refine ⟨?_, ?_, ?_, ?_⟩
  · rw [hspec]
    exact filterMap_specErr_fst model raw _
  · intro p hp
    rw [hspec] at hp
    rcases List.mem_map.mp hp with ⟨q, _, rfl⟩
    simp
  · intro i hi hfail p hp
    refine ⟨(List.range (numRows raw)).map (specCell model raw p.1), hlook p hp, ?_⟩
    rw [List.getElem?_map, List.getElem?_range hi]
    cases hval : model.validateRow (buildRow (raw.map Prod.fst) raw i) with
    | ok dump =>
      rw [rowFails, hval] at hfail
      simp [except_isOk_ok] at hfail
    | error e =>
      have hcell : specCell model raw p.1 i = ((raw.lookup p.1).getD []).getD i .vnull := by
        simp [specCell, hval]
      show some (specCell model raw p.1 i) = p.2[i]?
      rw [hcell, lookup_of_mem_nodup hnd hp]
      have hlen : i < p.2.length := by
        rw [halign p hp]
        exact hi
      rw [Option.getD_some, List.getD_eq_getElem?_getD, List.getElem?_eq_getElem hlen]
      rfl
  · intro i hi hok p hp
    cases hval : model.validateRow (buildRow (raw.map Prod.fst) raw i) with
    | error e =>
      rw [rowFails, hval] at hok
      simp [except_isOk_error] at hok
    | ok dump =>
      refine ⟨(List.range (numRows raw)).map (specCell model raw p.1), dump,
        hlook p hp, rfl, ?_⟩
      rw [List.getElem?_map, List.getElem?_range hi]
      have hcell : specCell model raw p.1 i = (dump.lookup p.1).getD .vnull := by
        simp [specCell, hval]
      show some (specCell model raw p.1 i) = some ((dump.lookup p.1).getD .vnull)
      rw [hcell]

theorem materialize_row_isolation_witness :
    (((([("AVModel_ID", [Value.vint 1, Value.vstr "x"]),
          ("AVManufacturer_ID", [Value.vnull, Value.vnull]),
          ("Model", [Value.vnull, Value.vnull])] : TableData).map Prod.fst).Nodup) ∧
      (∀ c ∈ ([("AVModel_ID", [Value.vint 1, Value.vstr "x"]),
          ("AVManufacturer_ID", [Value.vnull, Value.vnull]),
          ("Model", [Value.vnull, Value.vnull])] : TableData).map Prod.fst,
        c ∈ AVModel.names) ∧
      AVModel.names.Nodup ∧
      (∀ p ∈ ([("AVModel_ID", [Value.vint 1, Value.vstr "x"]),
          ("AVManufacturer_ID", [Value.vnull, Value.vnull]),
          ("Model", [Value.vnull, Value.vnull])] : TableData),
        p.2.length = numRows [("AVModel_ID", [Value.vint 1, Value.vstr "x"]),
          ("AVManufacturer_ID", [Value.vnull, Value.vnull]),
          ("Model", [Value.vnull, Value.vnull])])) ∧
    (((validate_table_data AVModel
        [("AVModel_ID", [.vint 1, .vstr "x"]), ("AVManufacturer_ID", [.vnull, .vnull]),
          ("Model", [.vnull, .vnull])]).2.map Prod.fst
      = (List.range (numRows [("AVModel_ID", [Value.vint 1, Value.vstr "x"]),
          ("AVManufacturer_ID", [Value.vnull, Value.vnull]),
          ("Model", [Value.vnull, Value.vnull])])).filter
          (rowFails AVModel [("AVModel_ID", [Value.vint 1, Value.vstr "x"]),
            ("AVManufacturer_ID", [Value.vnull, Value.vnull]),
            ("Model", [Value.vnull, Value.vnull])])) ∧
      (∀ p ∈ (validate_table_data AVModel
          [("AVModel_ID", [.vint 1, .vstr "x"]), ("AVManufacturer_ID", [.vnull, .vnull]),
            ("Model", [.vnull, .vnull])]).1,
        p.2.length = numRows [("AVModel_ID", [Value.vint 1, Value.vstr "x"]),
          ("AVManufacturer_ID", [Value.vnull, Value.vnull]),
          ("Model", [Value.vnull, Value.vnull])]) ∧
      (∀ i, i < numRows [("AVModel_ID", [Value.vint 1, Value.vstr "x"]),
            ("AVManufacturer_ID", [Value.vnull, Value.vnull]),
            ("Model", [Value.vnull, Value.vnull])] →
        rowFails AVModel [("AVModel_ID", [Value.vint 1, Value.vstr "x"]),
            ("AVManufacturer_ID", [Value.vnull, Value.vnull]),
            ("Model", [Value.vnull, Value.vnull])] i = true →
        ∀ p ∈ ([("AVModel_ID", [Value.vint 1, Value.vstr "x"]),
            ("AVManufacturer_ID", [Value.vnull, Value.vnull]),
            ("Model", [Value.vnull, Value.vnull])] : TableData),
          ∃ ws, (validate_table_data AVModel
              [("AVModel_ID", [.vint 1, .vstr "x"]),
                ("AVManufacturer_ID", [.vnull, .vnull]),
                ("Model", [.vnull, .vnull])]).1.lookup p.1 = some ws ∧
            ws[i]? = p.2[i]?) ∧
      (∀ i, i < numRows [("AVModel_ID", [Value.vint 1, Value.vstr "x"]),
            ("AVManufacturer_ID", [Value.vnull, Value.vnull]),
            ("Model", [Value.vnull, Value.vnull])] →
        rowFails AVModel [("AVModel_ID", [Value.vint 1, Value.vstr "x"]),
            ("AVManufacturer_ID", [Value.vnull, Value.vnull]),
            ("Model", [Value.vnull, Value.vnull])] i = false →
        ∀ p ∈ ([("AVModel_ID", [Value.vint 1, Value.vstr "x"]),
            ("AVManufacturer_ID", [Value.vnull, Value.vnull]),
            ("Model", [Value.vnull, Value.vnull])] : TableData),
          ∃ ws dump, (validate_table_data AVModel
              [("AVModel_ID", [.vint 1, .vstr "x"]),
                ("AVManufacturer_ID", [.vnull, .vnull]),
                ("Model", [.vnull, .vnull])]).1.lookup p.1 = some ws ∧
            AVModel.validateRow (buildRow (([("AVModel_ID", [Value.vint 1, Value.vstr "x"]),
                ("AVManufacturer_ID", [Value.vnull, Value.vnull]),
                ("Model", [Value.vnull, Value.vnull])] : TableData).map Prod.fst)
              [("AVModel_ID", [Value.vint 1, Value.vstr "x"]),
                ("AVManufacturer_ID", [Value.vnull, Value.vnull]),
                ("Model", [Value.vnull, Value.vnull])] i) = .ok dump ∧
            ws[i]? = some ((dump.lookup p.1).getD .vnull))) :=
  ⟨⟨by decide, by decide, by decide, by decide⟩,
    materialize_row_isolation AVModel
      [("AVModel_ID", [.vint 1, .vstr "x"]), ("AVManufacturer_ID", [.vnull, .vnull]),
        ("Model", [.vnull, .vnull])]
      (by decide) (by decide) (by decide) (by decide)⟩

end MerlinDB
